import Mathlib

/-!
Shallow embedding of `bert_downstream_classification.py` (pandas dataframe
preprocessing, stratified bootstrap splitting, BERT-style batch collation,
and the `main` driver's control flow), together with theorems checking the
specification's claims against it.

A dataframe restricted to the columns `index` (the label) and `question`
(the text) is modelled as a `List Row`; pandas row order is list order and
duplicate rows are duplicate list entries.  Randomness (`DataFrame.sample`)
is modelled by an explicit sampler function together with the properties
pandas guarantees for sampling without replacement (the result is a
sub-selection of the rows, of the requested size).
-/

namespace BertDownstream

/-- One record of the dataframe: the `index` column (the original label
value) and the `question` column (the text). -/
structure Row where
  index : ℤ
  question : String
deriving DecidableEq, Repr

/-- The distinct values of a list in order of first occurrence — the model
of `pandas.Series.unique` (which preserves first-occurrence order). -/
def uniques : List ℤ → List ℤ
  | [] => []
  | a :: l => a :: uniques (l.filter (fun b => b ≠ a))
termination_by l => l.length
decreasing_by
  simp only [List.length_cons]
  exact Nat.lt_succ_of_le (List.length_filter_le _ _)

theorem mem_uniques {a : ℤ} : ∀ {l : List ℤ}, a ∈ uniques l ↔ a ∈ l
  | [] => by simp [uniques]
  | b :: l => by
    rw [uniques]
    by_cases hab : a = b
    · subst hab; simp
    · simp only [List.mem_cons, hab, false_or]
      rw [mem_uniques (l := l.filter (fun c => c ≠ b))]
      simp [List.mem_filter, hab]
termination_by l => l.length
decreasing_by
  simp only [List.length_cons]
  exact Nat.lt_succ_of_le (List.length_filter_le _ _)

theorem uniques_nodup : ∀ {l : List ℤ}, (uniques l).Nodup
  | [] => by simp [uniques]
  | b :: l => by
    rw [uniques]
    refine List.Nodup.cons ?_ (uniques_nodup (l := l.filter (fun c => c ≠ b)))
    intro hb
    have := (mem_uniques).1 hb
    simp [List.mem_filter] at this
termination_by l => l.length
decreasing_by
  simp only [List.length_cons]
  exact Nat.lt_succ_of_le (List.length_filter_le _ _)

/-- `filter_toofew_toolong(df, min_each_group, max_length)`:
first drop the rows whose `question` is longer than `max_length`
(`df[~(df.question.apply(len) > max_length)]`), then compute
`value_counts` of the `index` column on the length-filtered frame, keep the
label values whose count is at least `min_each_group` (`list_idx`), and
keep the rows whose `index` is one of those (`df["index"].isin(list_idx)`). -/
def filter_toofew_toolong (df : List Row) (min_each_group max_length : ℕ) : List Row :=
  let df1 := df.filter (fun r => ¬ (r.question.length > max_length))
  let idxs := uniques (df1.map Row.index)
  let list_idx := idxs.filter (fun i => min_each_group ≤ (df1.map Row.index).count i)
  df1.filter (fun r => r.index ∈ list_idx)

/-- The specification's description of the filter, written from its words:
keep the rows of length at most `max_length`, then keep those rows whose
label's group count — computed on the already length-filtered set — is at
least `min_each_group`. -/
def filterSpecOutput (df : List Row) (min_each_group max_length : ℕ) : List Row :=
  let kept := df.filter (fun r => r.question.length ≤ max_length)
  kept.filter (fun r => min_each_group ≤ (kept.map Row.index).count r.index)

/-- `create_label2index(df)`: the dict `{val: idx for idx, val in
enumerate(df['index'].unique())}`, i.e. each distinct label value maps to
its position in the first-occurrence enumeration; lookup of a value outside
the dict (a `KeyError`) is `none`. -/
def create_label2index (df : List Row) : ℤ → Option ℤ := fun lab =>
  let u := uniques (df.map Row.index)
  if lab ∈ u then some ((List.indexOf lab u : ℕ) : ℤ) else none

/-- `create_index2label(df)`: the dict `{idx: val for idx, val in
enumerate(df['index'].unique())}`; lookup of a position outside `0..n-1`
is `none`. -/
def create_index2label (df : List Row) : ℤ → Option ℤ := fun i =>
  if 0 ≤ i then (uniques (df.map Row.index)).get? i.toNat else none

/-- `reindex(df, label2index)`: replace each row's `index` by
`label2index[index]`; a `KeyError` on any row makes the whole call fail. -/
def reindex (df : List Row) (label2index : ℤ → Option ℤ) : Option (List Row) :=
  df.mapM (fun r => (label2index r.index).map (fun i => { index := i, question := r.question }))

/-- The property claimed of the label/index maps built from `df`:
`create_label2index df` is a bijection from the distinct labels onto
`0..n-1`, `create_index2label df` is its inverse, and `reindex` succeeds
and makes the `index` column take exactly the values `0..n-1`, preserving
the number of distinct labels. -/
def LabelIndexSpec (df : List Row) : Prop :=
  let u := uniques (df.map Row.index)
  let n : ℤ := u.length
  (∀ lab ∈ u, ∃ i : ℤ, 0 ≤ i ∧ i < n ∧ create_label2index df lab = some i) ∧
  (∀ la ∈ u, ∀ lb ∈ u, create_label2index df la = create_label2index df lb → la = lb) ∧
  (∀ i : ℤ, 0 ≤ i → i < n → ∃ lab ∈ u, create_label2index df lab = some i) ∧
  (∀ lab ∈ u, (create_label2index df lab).bind (create_index2label df) = some lab) ∧
  (∀ i : ℤ, 0 ≤ i → i < n →
    (create_index2label df i).bind (create_label2index df) = some i) ∧
  (∃ df2, reindex df (create_label2index df) = some df2 ∧
    (∀ v : ℤ, v ∈ df2.map Row.index ↔ 0 ≤ v ∧ v < n) ∧
    (uniques (df2.map Row.index)).length = u.length)

theorem mapM_option_eq_map {α β : Type} (l : List α) (f : α → Option β) (g : α → β)
    (h : ∀ a ∈ l, f a = some (g a)) : l.mapM f = some (l.map g) := by
  induction l with
  | nil => rfl
  | cons a l ih =>
    rw [List.mapM_cons, h a (by simp), ih (fun a ha => h a (by simp [ha]))]
    rfl

theorem label2index_eq_of_mem {df : List Row} {lab : ℤ}
    (h : lab ∈ uniques (df.map Row.index)) :
    create_label2index df lab =
      some ((List.indexOf lab (uniques (df.map Row.index)) : ℕ) : ℤ) := by
  simp [create_label2index, h]

/-- C6: the mapping returned by `create_label2index` is a bijection from the
distinct values of the `index` column onto `0..n-1`, `create_index2label`
is its inverse, and `reindex` makes the `index` column take exactly the
values `0..n-1`, preserving the number of distinct labels. -/
theorem label_index_bijection (df : List Row) : LabelIndexSpec df := by
  simp only [LabelIndexSpec]
  have hnodup : (uniques (df.map Row.index)).Nodup := uniques_nodup
  refine ⟨?_, ?_, ?_, ?_, ?_, ?_⟩
  · intro lab hlab
    refine ⟨(List.indexOf lab (uniques (df.map Row.index)) : ℤ), by positivity, ?_,
      label2index_eq_of_mem hlab⟩
    exact_mod_cast List.indexOf_lt_length.2 hlab
  · intro la hla lb hlb heq
    rw [label2index_eq_of_mem hla, label2index_eq_of_mem hlb] at heq
    have : List.indexOf la (uniques (df.map Row.index)) =
        List.indexOf lb (uniques (df.map Row.index)) := by
      exact_mod_cast Option.some_injective _ heq
    exact (List.indexOf_inj hla hlb).1 this
  · intro i hi0 hin
    have hj : i.toNat < (uniques (df.map Row.index)).length := (Int.toNat_lt hi0).2 hin
    refine ⟨(uniques (df.map Row.index)).get ⟨i.toNat, hj⟩, List.get_mem _ _ _, ?_⟩
    rw [label2index_eq_of_mem (List.get_mem _ _ _), List.get_indexOf hnodup]
    simp [Int.toNat_of_nonneg hi0]
  · intro lab hlab
    rw [label2index_eq_of_mem hlab]
    have hlt : List.indexOf lab (uniques (df.map Row.index)) <
        (uniques (df.map Row.index)).length := List.indexOf_lt_length.2 hlab
    simp only [Option.some_bind, create_index2label]
    rw [if_pos (by positivity)]
    simp only [Int.toNat_natCast]
    rw [List.get?_eq_get hlt, List.indexOf_get]
  · intro i hi0 hin
    have hj : i.toNat < (uniques (df.map Row.index)).length := (Int.toNat_lt hi0).2 hin
    simp only [create_index2label, if_pos hi0]
    rw [List.get?_eq_get hj]
    simp only [Option.some_bind]
    rw [label2index_eq_of_mem (List.get_mem _ _ _), List.get_indexOf hnodup]
    simp [Int.toNat_of_nonneg hi0]
  · refine ⟨df.map (fun r =>
      { index := (List.indexOf r.index (uniques (df.map Row.index)) : ℤ),
        question := r.question }), ?_, ?_, ?_⟩
    · apply mapM_option_eq_map
      intro r hr
      have hmem : r.index ∈ uniques (df.map Row.index) :=
        mem_uniques.2 (List.mem_map_of_mem Row.index hr)
      rw [label2index_eq_of_mem hmem]
      rfl
    · intro v
      simp only [List.map_map, List.mem_map, Function.comp]
      constructor
      · rintro ⟨r, hr, rfl⟩
        have hmem : r.index ∈ uniques (df.map Row.index) :=
          mem_uniques.2 (List.mem_map_of_mem Row.index hr)
        exact ⟨by positivity, by exact_mod_cast List.indexOf_lt_length.2 hmem⟩
      · rintro ⟨hv0, hvn⟩
        have hj : v.toNat < (uniques (df.map Row.index)).length := (Int.toNat_lt hv0).2 hvn
        have hmem : (uniques (df.map Row.index)).get ⟨v.toNat, hj⟩ ∈ df.map Row.index :=
          mem_uniques.1 (List.get_mem _ _ _)
        obtain ⟨r, hr, hridx⟩ := List.mem_map.1 hmem
        refine ⟨r, hr, ?_⟩
        rw [hridx, List.get_indexOf hnodup]
        simp [Int.toNat_of_nonneg hv0]
    · have hcol : ∀ v : ℤ,
          v ∈ uniques ((df.map (fun r =>
            ({ index := (List.indexOf r.index (uniques (df.map Row.index)) : ℤ),
               question := r.question } : Row))).map Row.index) ↔
          0 ≤ v ∧ v < ((uniques (df.map Row.index)).length : ℤ) := by
        intro v
        rw [mem_uniques]
        simp only [List.map_map, List.mem_map, Function.comp]
        constructor
        · rintro ⟨r, hr, rfl⟩
          have hmem : r.index ∈ uniques (df.map Row.index) :=
            mem_uniques.2 (List.mem_map_of_mem Row.index hr)
          exact ⟨by positivity, by exact_mod_cast List.indexOf_lt_length.2 hmem⟩
        · rintro ⟨hv0, hvn⟩
          have hj : v.toNat < (uniques (df.map Row.index)).length := (Int.toNat_lt hv0).2 hvn
          have hmem : (uniques (df.map Row.index)).get ⟨v.toNat, hj⟩ ∈ df.map Row.index :=
            mem_uniques.1 (List.get_mem _ _ _)
          obtain ⟨r, hr, hridx⟩ := List.mem_map.1 hmem
          refine ⟨r, hr, ?_⟩
          rw [hridx, List.get_indexOf hnodup]
          simp [Int.toNat_of_nonneg hv0]
      have hfin : (uniques ((df.map (fun r =>
            ({ index := (List.indexOf r.index (uniques (df.map Row.index)) : ℤ),
               question := r.question } : Row))).map Row.index)).toFinset =
          Finset.Ico (0 : ℤ) ((uniques (df.map Row.index)).length : ℤ) := by
        ext v
        rw [List.mem_toFinset, hcol, Finset.mem_Ico]
      calc (uniques ((df.map (fun r =>
            ({ index := (List.indexOf r.index (uniques (df.map Row.index)) : ℤ),
               question := r.question } : Row))).map Row.index)).length
          = (uniques ((df.map (fun r =>
            ({ index := (List.indexOf r.index (uniques (df.map Row.index)) : ℤ),
               question := r.question } : Row))).map Row.index)).toFinset.card :=
            (List.toFinset_card_of_nodup uniques_nodup).symm
        _ = (Finset.Ico (0 : ℤ) ((uniques (df.map Row.index)).length : ℤ)).card := by
            rw [hfin]
        _ = (uniques (df.map Row.index)).length := by
            rw [Int.card_Ico]
            simp

/-- C4: `filter_toofew_toolong` keeps exactly the rows whose question
length is at most `max_length` (equality kept, since the code drops only
strictly longer rows), and then — with group counts computed on the already
length-filtered rows — exactly those whose label count is at least
`min_each_group`. -/
theorem filter_toofew_toolong_eq_spec (df : List Row) (min_each_group max_length : ℕ) :
    filter_toofew_toolong df min_each_group max_length =
      filterSpecOutput df min_each_group max_length := by
  simp only [filter_toofew_toolong, filterSpecOutput]
  have h1 : df.filter (fun r => decide ¬ (r.question.length > max_length)) =
      df.filter (fun r => decide (r.question.length ≤ max_length)) := by
    apply List.filter_congr
    intro r _
    simp [Nat.not_lt]
  rw [h1]
  apply List.filter_congr
  intro r hr
  have hmem : r.index ∈ uniques
      ((df.filter (fun r => decide (r.question.length ≤ max_length))).map Row.index) :=
    mem_uniques.2 (List.mem_map_of_mem Row.index hr)
  simp only [decide_eq_decide, List.mem_filter, mem_uniques]
  constructor
  · rintro ⟨_, hc⟩
    exact of_decide_eq_true hc
  · intro hc
    exact ⟨mem_uniques.1 hmem, decide_eq_true hc⟩

/-- Python's built-in `round` on a rational value (round half to even),
used by pandas to turn `frac` into a sample size. -/
def pyRound (q : ℚ) : ℤ :=
  if q - ⌊q⌋ < 1/2 then ⌊q⌋
  else if 1/2 < q - ⌊q⌋ then ⌊q⌋ + 1
  else if Even ⌊q⌋ then ⌊q⌋ else ⌊q⌋ + 1

/-- The number of rows `DataFrame.sample(frac=fraction)` draws from a frame
of `len` rows: `int(round(frac * axis_length))`. -/
def sampleSize (fraction : ℚ) (len : ℕ) : ℕ := (pyRound (fraction * len)).toNat

/-- What pandas guarantees of `sample(n)` without replacement (the default
`replace=False` used by the code): when `n` does not exceed the frame, the
result is `n` of its rows, each drawn at a distinct position (a permutation
of a sublist).  A concrete sampler instantiates the randomness. -/
def ValidSampler (choose : List Row → ℕ → List Row) : Prop :=
  ∀ g : List Row, ∀ n : ℕ, n ≤ g.length →
    List.Subperm (choose g n) g ∧ (choose g n).length = n

/-- The group keys of `data.groupby('index')`: the distinct label values in
ascending order. -/
def groupKeys (df : List Row) : List ℤ :=
  Finset.sort (· ≤ ·) (df.map Row.index).toFinset

/-- `sampleClass(classgroup)` applied to the group of rows labelled `k`:
`classgroup.sample(frac=fraction)`, with `choose` modelling the random
sampling. -/
def bootstrapPiece (choose : List Row → ℕ → List Row) (data : List Row) (fraction : ℚ)
    (k : ℤ) : List Row :=
  choose (data.filter (fun r => r.index = k))
    (sampleSize fraction ((data.filter (fun r => r.index = k)).length))

/-- `bootstrap(data, fraction)`: group `data` by the `index` column and
sample `fraction` of each group (`classgroup.sample(frac=fraction)`),
concatenating the per-group samples; resetting the resulting multi-index
(`samples.index = samples.index.get_level_values(1)`) does not change the
rows. -/
def bootstrap (choose : List Row → ℕ → List Row) (data : List Row) (fraction : ℚ) :
    List Row :=
  (groupKeys data).flatMap (bootstrapPiece choose data fraction)

theorem pyRound_le {q : ℚ} {n : ℕ} (h : q ≤ n) : pyRound q ≤ (n : ℤ) := by
  unfold pyRound
  have hfl : ⌊q⌋ ≤ (n : ℤ) := by
    have := Int.floor_le_floor h
    rwa [Int.floor_natCast] at this
  by_cases h1 : q - ⌊q⌋ < 1/2
  · rw [if_pos h1]
    exact hfl
  · have hge : (1:ℚ)/2 ≤ q - ⌊q⌋ := not_lt.1 h1
    have hqf : (⌊q⌋ : ℚ) + 1/2 ≤ (n : ℚ) := by
      have := Int.floor_le q
      linarith
    have hlt : ⌊q⌋ < (n : ℤ) := by
      by_contra hc
      push_neg at hc
      have : (n : ℚ) ≤ (⌊q⌋ : ℚ) := by exact_mod_cast hc
      linarith
    rw [if_neg h1]
    split_ifs <;> omega

theorem sampleSize_le {fraction : ℚ} (_h0 : 0 ≤ fraction) (h1 : fraction ≤ 1) (n : ℕ) :
    sampleSize fraction n ≤ n := by
  have hq : fraction * n ≤ (n : ℚ) := by
    have hn : (0:ℚ) ≤ (n : ℚ) := by positivity
    nlinarith
  exact Int.toNat_le.2 (pyRound_le hq)

theorem sampleSize_zero (fraction : ℚ) : sampleSize fraction 0 = 0 := by
  norm_num [sampleSize, pyRound]

theorem groupKeys_nodup (df : List Row) : (groupKeys df).Nodup := by
  unfold groupKeys
  exact Finset.sort_nodup _ _

theorem mem_groupKeys {df : List Row} {k : ℤ} :
    k ∈ groupKeys df ↔ ∃ r ∈ df, r.index = k := by
  simp [groupKeys, Finset.mem_sort, List.mem_map]

theorem filter_flatMap_index (l : List ℤ) (f : ℤ → List Row) (k : ℤ)
    (hall : ∀ j ∈ l, ∀ r ∈ f j, r.index = j) (hnd : l.Nodup) :
    (l.flatMap f).filter (fun r => r.index = k) = if k ∈ l then f k else [] := by
  induction l with
  | nil => simp
  | cons a l ih =>
    rw [List.flatMap_cons, List.filter_append]
    have hrest := ih (fun j hj r hr => hall j (by simp [hj]) r hr) hnd.of_cons
    by_cases hka : k = a
    · subst hka
      have hnotin : k ∉ l := (List.nodup_cons.1 hnd).1
      have hhead : (f k).filter (fun r => r.index = k) = f k :=
        List.filter_eq_self.2 (fun r hr => by
          simp [hall k (by simp) r hr])
      rw [hhead, hrest, if_neg hnotin, if_pos (by simp)]
      simp
    · have hhead : (f a).filter (fun r => r.index = k) = [] :=
        List.filter_eq_nil_iff.2 (fun r hr => by
          simp [hall a (by simp) r hr, Ne.symm hka])
      rw [hhead, hrest]
      simp [hka]

/-- The stratification property claimed of `bootstrap`: it returns only
rows of `data`, and for every label value `k` the number of returned rows
with that label is exactly the sample size pandas computes for the group of
`k`-labelled rows (`round(fraction * group_size)`). -/
def StratifiedSpec (choose : List Row → ℕ → List Row) (data : List Row) (fraction : ℚ) :
    Prop :=
  (∀ r ∈ bootstrap choose data fraction, r ∈ data) ∧
  (∀ k : ℤ, ((bootstrap choose data fraction).filter (fun r => r.index = k)).length =
    sampleSize fraction ((data.filter (fun r => r.index = k)).length))

theorem bootstrapPiece_subset {choose : List Row → ℕ → List Row}
    (hs : ValidSampler choose) {fraction : ℚ} (h0 : 0 ≤ fraction) (h1 : fraction ≤ 1)
    (data : List Row) (k : ℤ) :
    ∀ r ∈ bootstrapPiece choose data fraction k, r ∈ data.filter (fun r => r.index = k) := by
  intro r hr
  exact (hs _ _ (sampleSize_le h0 h1 _)).1.subset hr

/-- C7: `bootstrap(data, fraction)` returns only rows of `data`, and the
number of rows drawn from each label class equals the per-group sample size
(the draw is stratified per label class). -/
theorem bootstrap_stratified (choose : List Row → ℕ → List Row) (data : List Row)
    (fraction : ℚ) (hs : ValidSampler choose) (h0 : 0 ≤ fraction) (h1 : fraction ≤ 1) :
    StratifiedSpec choose data fraction := by
  have hall : ∀ j ∈ groupKeys data, ∀ r ∈ bootstrapPiece choose data fraction j,
      r.index = j := by
    intro j _ r hr
    have := bootstrapPiece_subset hs h0 h1 data j r hr
    exact of_decide_eq_true (List.mem_filter.1 this).2
  constructor
  · intro r hr
    simp only [bootstrap, List.mem_flatMap] at hr
    obtain ⟨k, hk, hr⟩ := hr
    exact (List.mem_filter.1 (bootstrapPiece_subset hs h0 h1 data k r hr)).1
  · intro k
    have hfm := filter_flatMap_index (groupKeys data) (bootstrapPiece choose data fraction)
      k hall (groupKeys_nodup data)
    rw [bootstrap, hfm]
    by_cases hk : k ∈ groupKeys data
    · rw [if_pos hk]
      exact (hs _ _ (sampleSize_le h0 h1 _)).2
    · rw [if_neg hk]
      have hempty : data.filter (fun r => r.index = k) = [] :=
        List.filter_eq_nil_iff.2 (fun r hr hrk => hk (mem_groupKeys.2
          ⟨r, hr, of_decide_eq_true hrk⟩))
      simp [bootstrapPiece, hempty, sampleSize_zero]

theorem subperm_nodup {α : Type} {l₁ l₂ : List α} (h : List.Subperm l₁ l₂)
    (h2 : l₂.Nodup) : l₁.Nodup := by
  obtain ⟨l, hperm, hsub⟩ := h
  exact hperm.nodup (List.Nodup.sublist hsub h2)

theorem bootstrap_nodup {choose : List Row → ℕ → List Row} (hs : ValidSampler choose)
    {fraction : ℚ} (h0 : 0 ≤ fraction) (h1 : fraction ≤ 1) {data : List Row}
    (hdata : data.Nodup) : (bootstrap choose data fraction).Nodup := by
  rw [bootstrap, List.nodup_flatMap]
  constructor
  · intro k _
    exact subperm_nodup (hs _ _ (sampleSize_le h0 h1 _)).1 (hdata.filter _)
  · refine (groupKeys_nodup data).imp ?_
    intro a b hab r hra hrb
    have ha := of_decide_eq_true
      (List.mem_filter.1 (bootstrapPiece_subset hs h0 h1 data a r hra)).2
    have hb := of_decide_eq_true
      (List.mem_filter.1 (bootstrapPiece_subset hs h0 h1 data b r hrb)).2
    exact hab (ha ▸ hb)

/-- `concat(...).drop_duplicates(keep=False)`: keep exactly the rows whose
value occurs exactly once in the frame. -/
def dropDupKeepFalse (l : List Row) : List Row :=
  l.filter (fun r => l.count r = 1)

/-- `output_split(df, fraction)`: draw the training set by `bootstrap`,
obtain the remainder as `concat([df_train, df]).drop_duplicates(keep=False)`,
draw the validation set as `df_remain.sample(frac=0.5, random_state=5)`
(`chooseVal` models that draw), and obtain the test set as
`concat([df_val, df_remain]).drop_duplicates(keep=False)`. -/
def output_split (choose chooseVal : List Row → ℕ → List Row) (df : List Row)
    (fraction : ℚ) : List Row × List Row × List Row :=
  let df_train := bootstrap choose df fraction
  let df_remain := dropDupKeepFalse (df_train ++ df)
  let df_val := chooseVal df_remain (sampleSize (1/2) df_remain.length)
  let df_test := dropDupKeepFalse (df_val ++ df_remain)
  (df_train, df_val, df_test)

theorem dropDup_append (A B : List Row) (hA : A.Nodup) (hB : B.Nodup)
    (hBA : ∀ r ∈ B, r ∈ A) :
    dropDupKeepFalse (B ++ A) = A.filter (fun r => ¬ r ∈ B) := by
  unfold dropDupKeepFalse
  rw [List.filter_append]
  have hBpart : B.filter (fun r => (B ++ A).count r = 1) = [] := by
    rw [List.filter_eq_nil_iff]
    intro r hr
    have h1 : B.count r = 1 := List.count_eq_one_of_mem hB hr
    have h2 : A.count r = 1 := List.count_eq_one_of_mem hA (hBA r hr)
    simp [List.count_append, h1, h2]
  have hApart : A.filter (fun r => (B ++ A).count r = 1) = A.filter (fun r => ¬ r ∈ B) := by
    apply List.filter_congr
    intro r hrA
    have h2 : A.count r = 1 := List.count_eq_one_of_mem hA hrA
    by_cases hrB : r ∈ B
    · have h1 : B.count r = 1 := List.count_eq_one_of_mem hB hrB
      simp [List.count_append, h1, h2, hrB]
    · have h1 : B.count r = 0 := List.count_eq_zero.2 hrB
      simp [List.count_append, h1, h2, hrB]
  rw [hBpart, hApart]
  simp

/-- Three lists partition `df`: together they cover exactly the rows of
`df` and they are pairwise disjoint. -/
def IsPartition3 (df tr va te : List Row) : Prop :=
  (∀ r, r ∈ df ↔ (r ∈ tr ∨ r ∈ va ∨ r ∈ te)) ∧
  (∀ r, r ∈ tr → r ∉ va) ∧
  (∀ r, r ∈ tr → r ∉ te) ∧
  (∀ r, r ∈ va → r ∉ te)

/-- C1: on a deduplicated dataframe, `output_split` returns three sets of
rows that are pairwise disjoint and whose union is exactly the rows of
`df`, for any valid samplers instantiating the randomness. -/
theorem output_split_partition (choose chooseVal : List Row → ℕ → List Row)
    (df : List Row) (fraction : ℚ) (hdf : df.Nodup)
    (hs : ValidSampler choose) (hsv : ValidSampler chooseVal)
    (h0 : 0 ≤ fraction) (h1 : fraction ≤ 1) :
    IsPartition3 df (output_split choose chooseVal df fraction).1
      (output_split choose chooseVal df fraction).2.1
      (output_split choose chooseVal df fraction).2.2 := by
  have htrnd : (bootstrap choose df fraction).Nodup := bootstrap_nodup hs h0 h1 hdf
  have htrsub : ∀ r ∈ bootstrap choose df fraction, r ∈ df :=
    (bootstrap_stratified choose df fraction hs h0 h1).1
  have hremain : dropDupKeepFalse (bootstrap choose df fraction ++ df) =
      df.filter (fun r => ¬ r ∈ bootstrap choose df fraction) :=
    dropDup_append df (bootstrap choose df fraction) hdf htrnd htrsub
  simp only [output_split, hremain]
  set tr := bootstrap choose df fraction with htr
  set rem := df.filter (fun r => ¬ r ∈ tr) with hrem
  have hremnd : rem.Nodup := hdf.filter _
  have hvalid := hsv rem (sampleSize (1/2) rem.length)
    (sampleSize_le (by norm_num) (by norm_num) _)
  set va := chooseVal rem (sampleSize (1/2) rem.length) with hva
  have hvand : va.Nodup := subperm_nodup hvalid.1 hremnd
  have hvasub : ∀ r ∈ va, r ∈ rem := fun r hr => hvalid.1.subset hr
  have htest : dropDupKeepFalse (va ++ rem) = rem.filter (fun r => ¬ r ∈ va) :=
    dropDup_append rem va hremnd hvand hvasub
  simp only [htest]
  have hrem_mem : ∀ r, r ∈ rem ↔ (r ∈ df ∧ r ∉ tr) := by
    intro r
    rw [hrem, List.mem_filter]
    simp
  have hte_mem : ∀ r, r ∈ rem.filter (fun r => ¬ r ∈ va) ↔ (r ∈ rem ∧ r ∉ va) := by
    intro r
    rw [List.mem_filter]
    simp
  refine ⟨?_, ?_, ?_, ?_⟩
  · intro r
    constructor
    · intro hr
      by_cases hrtr : r ∈ tr
      · exact Or.inl hrtr
      · have hrrem : r ∈ rem := (hrem_mem r).2 ⟨hr, hrtr⟩
        by_cases hrva : r ∈ va
        · exact Or.inr (Or.inl hrva)
        · exact Or.inr (Or.inr ((hte_mem r).2 ⟨hrrem, hrva⟩))
    · rintro (hr | hr | hr)
      · exact htrsub r hr
      · exact ((hrem_mem r).1 (hvasub r hr)).1
      · exact ((hrem_mem r).1 ((hte_mem r).1 hr).1).1
  · intro r hrtr hrva
    exact ((hrem_mem r).1 (hvasub r hrva)).2 hrtr
  · intro r hrtr hrte
    exact ((hrem_mem r).1 ((hte_mem r).1 hrte).1).2 hrtr
  · intro r hrva hrte
    exact ((hte_mem r).1 hrte).2 hrva

/-- A concrete valid sampler (used to instantiate theorems on concrete
inputs): always select the first `n` rows. -/
def takeSampler : List Row → ℕ → List Row := fun g n => g.take n

theorem takeSampler_valid : ValidSampler takeSampler := by
  intro g n hn
  refine ⟨(List.take_sublist n g).subperm, ?_⟩
  simp [takeSampler, List.length_take, Nat.min_eq_left hn]

theorem bootstrap_stratified_witness :
    StratifiedSpec takeSampler
      [{ index := 0, question := "a" }, { index := 0, question := "b" },
       { index := 1, question := "c" }] (1/2) :=
  bootstrap_stratified takeSampler _ _ takeSampler_valid (by norm_num) (by norm_num)

theorem output_split_partition_witness :
    IsPartition3
      [{ index := 0, question := "a" }, { index := 0, question := "b" },
       { index := 1, question := "c" }]
      (output_split takeSampler takeSampler
        [{ index := 0, question := "a" }, { index := 0, question := "b" },
         { index := 1, question := "c" }] (7/10)).1
      (output_split takeSampler takeSampler
        [{ index := 0, question := "a" }, { index := 0, question := "b" },
         { index := 1, question := "c" }] (7/10)).2.1
      (output_split takeSampler takeSampler
        [{ index := 0, question := "a" }, { index := 0, question := "b" },
         { index := 1, question := "c" }] (7/10)).2.2 :=
  output_split_partition takeSampler takeSampler _ (7/10) (by decide)
    takeSampler_valid takeSampler_valid (by norm_num) (by norm_num)

/-- One sample of `OnlineQueryDataset`: the tuple
`(tokens_tensor, segments_tensor, label_tensor)`, with `none` for the
absent label of test mode. -/
abbrev Sample : Type := List ℕ × List ℕ × Option ℤ

/-- The maximum sequence length in a batch of 1-d tensors. -/
def padMaxLen (ls : List (List ℕ)) : ℕ := (ls.map List.length).foldr max 0

/-- `torch.nn.utils.rnn.pad_sequence(batch_first=True)` with the default
padding value 0: right-pad every tensor to the batch maximum length. -/
def pad_sequence (ls : List (List ℕ)) : List (List ℕ) :=
  ls.map (fun l => l ++ List.replicate (padMaxLen ls - l.length) 0)

/-- `create_mini_batch(samples)`: read the tensors out of the samples;
when the first sample has a label, `torch.stack` the labels (raising — the
`none` result — if any sample's label is missing); zero-pad tokens and
segments each to its own batch maximum; build the attention mask by
`masked_fill(tokens_tensors != 0, 1)` over a zero tensor of the padded
token shape.  An empty `samples` fails on `samples[0]`. -/
def create_mini_batch (samples : List Sample) :
    Option (List (List ℕ) × List (List ℕ) × List (List ℕ) × Option (List ℤ)) :=
  match samples with
  | [] => none
  | s0 :: _ =>
    (match s0.2.2 with
     | some _ => (samples.mapM (fun (s : Sample) => s.2.2)).map some
     | none => some none).bind (fun label_ids =>
      some (pad_sequence (samples.map (fun (s : Sample) => s.1)),
            pad_sequence (samples.map (fun (s : Sample) => s.2.1)),
            (pad_sequence (samples.map (fun (s : Sample) => s.1))).map
              (fun (row : List ℕ) => row.map (fun t => if t ≠ 0 then 1 else 0)),
            label_ids))

/-- The batch returned by `create_mini_batch` (meaningful only when the
call succeeds). -/
def collate (samples : List Sample) :
    List (List ℕ) × List (List ℕ) × List (List ℕ) × Option (List ℤ) :=
  (create_mini_batch samples).getD ([], [], [], none)

def tokensOf (samples : List Sample) : List (List ℕ) := (collate samples).1

def segmentsOf (samples : List Sample) : List (List ℕ) := (collate samples).2.1

def masksOf (samples : List Sample) : List (List ℕ) := (collate samples).2.2.1

def labelsOf (samples : List Sample) : Option (List ℤ) := (collate samples).2.2.2

/-- The mask property as the claim states it: the collation succeeds and
entry `j` of mask row `i` is 1 exactly when position `j` of padded row `i`
holds a token of the original `i`-th sequence. -/
def MaskSpec (samples : List Sample) : Prop :=
  (create_mini_batch samples).isSome = true ∧
  ∀ i, i < samples.length →
    ∀ j, j < ((tokensOf samples).getD i []).length →
      (((masksOf samples).getD i []).getD j 0 = 1 ↔
        j < (samples.getD i ([], [], none)).1.length)

/-- The shape property as the claim states it: the collation succeeds,
token and segment tensors both have `samples.length` rows of width equal to
the maximum *token* length of the batch, each row is the original sequence
right-padded with zeros to that width, and the label component stacks all
labels when the first sample has one and is `none` otherwise. -/
def RectSpec (samples : List Sample) : Prop :=
  (create_mini_batch samples).isSome = true ∧
  (tokensOf samples).length = samples.length ∧
  (segmentsOf samples).length = samples.length ∧
  (∀ i, i < samples.length →
    (tokensOf samples).getD i [] = (samples.getD i ([], [], none)).1 ++
      List.replicate (padMaxLen (samples.map (fun s => s.1)) -
        (samples.getD i ([], [], none)).1.length) 0) ∧
  (∀ i, i < samples.length →
    (segmentsOf samples).getD i [] = (samples.getD i ([], [], none)).2.1 ++
      List.replicate (padMaxLen (samples.map (fun s => s.1)) -
        (samples.getD i ([], [], none)).2.1.length) 0) ∧
  (∀ i, i < samples.length →
    ((tokensOf samples).getD i []).length = padMaxLen (samples.map (fun s => s.1))) ∧
  (∀ i, i < samples.length →
    ((segmentsOf samples).getD i []).length = padMaxLen (samples.map (fun s => s.1))) ∧
  labelsOf samples = (if (samples.headD ([], [], none)).2.2.isSome
    then some (samples.map (fun s => (s.2.2).getD 0)) else none)

instance (samples : List Sample) : Decidable (MaskSpec samples) := by
  unfold MaskSpec
  infer_instance

instance (samples : List Sample) : Decidable (RectSpec samples) := by
  unfold RectSpec
  infer_instance

theorem create_mini_batch_eq (samples : List Sample) (hne : samples ≠ [])
    (hlab : (samples.headD ([], [], none)).2.2.isSome = true →
      ∀ s ∈ samples, (s.2.2).isSome = true) :
    create_mini_batch samples =
      some (pad_sequence (samples.map (fun (s : Sample) => s.1)),
            pad_sequence (samples.map (fun (s : Sample) => s.2.1)),
            (pad_sequence (samples.map (fun (s : Sample) => s.1))).map
              (fun (row : List ℕ) => row.map (fun t => if t ≠ 0 then 1 else 0)),
            if (samples.headD ([], [], none)).2.2.isSome
              then some (samples.map (fun (s : Sample) => (s.2.2).getD 0)) else none) := by
  match samples, hne with
  | s0 :: rest, _ =>
    rw [create_mini_batch]
    cases hs0 : s0.2.2 with
    | none => simp [hs0]
    | some v =>
      have hall : ∀ s ∈ s0 :: rest, (fun (s : Sample) => s.2.2) s = some ((s.2.2).getD 0) := by
        intro s hs
        obtain ⟨a, ha⟩ := Option.isSome_iff_exists.1 (hlab (by simp [hs0]) s hs)
        simp [ha]
      rw [mapM_option_eq_map _ _ _ hall]
      simp [hs0]

theorem le_padMaxLen (ls : List (List ℕ)) : ∀ l ∈ ls, l.length ≤ padMaxLen ls := by
  induction ls with
  | nil => simp
  | cons a ls ih =>
    intro l hl
    simp only [padMaxLen, List.map_cons, List.foldr_cons]
    rcases List.mem_cons.1 hl with rfl | hl
    · exact le_max_left _ _
    · exact le_trans (ih l hl) (le_max_right _ _)

theorem getD_lt_length {α : Type} (l : List α) (i : ℕ) (d : α) (hi : i < l.length) :
    l.getD i d = l.get ⟨i, hi⟩ := by
  rw [List.getD_eq_getElem?_getD, List.getElem?_eq_getElem hi]
  rfl

theorem pad_sequence_length (ls : List (List ℕ)) : (pad_sequence ls).length = ls.length := by
  simp [pad_sequence]

theorem pad_sequence_getD (ls : List (List ℕ)) (i : ℕ) (hi : i < ls.length) :
    (pad_sequence ls).getD i [] =
      ls.getD i [] ++ List.replicate (padMaxLen ls - (ls.getD i []).length) 0 := by
  unfold pad_sequence
  rw [List.getD_eq_getElem?_getD, List.getElem?_map, List.getElem?_eq_getElem hi,
    getD_lt_length ls i [] hi]
  simp [List.get_eq_getElem]

theorem getD_mem_of_lt {α : Type} (l : List α) (i : ℕ) (d : α) (hi : i < l.length) :
    l.getD i d ∈ l := by
  rw [getD_lt_length l i d hi]
  exact List.get_mem _ _ _

theorem pad_sequence_getD_length (ls : List (List ℕ)) (i : ℕ) (hi : i < ls.length) :
    ((pad_sequence ls).getD i []).length = padMaxLen ls := by
  rw [pad_sequence_getD ls i hi]
  have hle : (ls.getD i []).length ≤ padMaxLen ls :=
    le_padMaxLen ls _ (getD_mem_of_lt ls i [] hi)
  rw [List.length_append, List.length_replicate]
  omega

theorem getD_map_mask (row : List ℕ) (j : ℕ) (hj : j < row.length) :
    (row.map (fun t => if t ≠ 0 then 1 else 0)).getD j 0 =
      if row.getD j 0 ≠ 0 then 1 else 0 := by
  rw [List.getD_eq_getElem?_getD, List.getElem?_map, List.getElem?_eq_getElem hj,
    List.getD_eq_getElem?_getD, List.getElem?_eq_getElem hj]
  rfl

theorem getD_append_replicate_right (l : List ℕ) (m j : ℕ) (hj : l.length ≤ j) :
    (l ++ List.replicate m 0).getD j 0 = 0 := by
  rw [List.getD_eq_getElem?_getD, List.getElem?_append, if_neg (by omega),
    List.getElem?_replicate]
  by_cases h : j - l.length < m
  · simp [h]
  · simp [h]

theorem getD_map_sample {β : Type} (f : Sample → β) (d : β) (samples : List Sample)
    (i : ℕ) (hi : i < samples.length) :
    (samples.map f).getD i d = f (samples.getD i ([], [], none)) := by
  rw [List.getD_eq_getElem?_getD, List.getElem?_map, List.getElem?_eq_getElem hi,
    getD_lt_length samples i ([], [], none) hi]
  simp [List.get_eq_getElem]

/-- C3 (amended): when every sample's token sequence avoids the padding id
0 (and the batch is non-empty with uniformly present labels), the attention
mask is 1 exactly at the positions of the original sequences and 0 at every
padding position. -/
theorem create_mini_batch_mask (samples : List Sample) (hne : samples ≠ [])
    (hlab : (samples.headD ([], [], none)).2.2.isSome = true →
      ∀ s ∈ samples, (s.2.2).isSome = true)
    (hz : ∀ s ∈ samples, (0 : ℕ) ∉ s.1) : MaskSpec samples := by
  have heq := create_mini_batch_eq samples hne hlab
  have htok : tokensOf samples = pad_sequence (samples.map (fun (s : Sample) => s.1)) := by
    rw [tokensOf, collate, heq]
    rfl
  have hmask : masksOf samples =
      (pad_sequence (samples.map (fun (s : Sample) => s.1))).map
        (fun (row : List ℕ) => row.map (fun t => if t ≠ 0 then 1 else 0)) := by
    rw [masksOf, collate, heq]
    rfl
  constructor
  · rw [heq]
    rfl
  · intro i hi j hj
    have hi' : i < (samples.map (fun (s : Sample) => s.1)).length := by
      simpa using hi
    have hipad : i < (pad_sequence (samples.map (fun (s : Sample) => s.1))).length := by
      simpa [pad_sequence_length] using hi'
    have hrow : (samples.map (fun (s : Sample) => s.1)).getD i [] =
        (samples.getD i ([], [], none)).1 :=
      getD_map_sample (fun (s : Sample) => s.1) [] samples i hi
    have hpad := pad_sequence_getD (samples.map (fun (s : Sample) => s.1)) i hi'
    have hmrow : (masksOf samples).getD i [] =
        ((pad_sequence (samples.map (fun (s : Sample) => s.1))).getD i []).map
          (fun t => if t ≠ 0 then 1 else 0) := by
      rw [hmask, List.getD_eq_getElem?_getD, List.getElem?_map,
        List.getElem?_eq_getElem hipad, getD_lt_length _ i [] hipad]
      rfl
    have hj' : j < ((pad_sequence (samples.map (fun (s : Sample) => s.1))).getD i []).length := by
      rw [← htok]
      exact hj
    rw [hmrow, getD_map_mask _ j hj']
    rw [hpad, hrow] at hj' ⊢
    rw [List.length_append, List.length_replicate] at hj'
    by_cases hjlen : j < (samples.getD i ([], [], none)).1.length
    · have hget : ((samples.getD i ([], [], none)).1 ++
          List.replicate (padMaxLen (samples.map (fun (s : Sample) => s.1)) -
            (samples.getD i ([], [], none)).1.length) 0).getD j 0 =
          (samples.getD i ([], [], none)).1.getD j 0 :=
        List.getD_append _ _ _ _ hjlen
      have hmem : (samples.getD i ([], [], none)).1.getD j 0 ∈
          (samples.getD i ([], [], none)).1 := getD_mem_of_lt _ j 0 hjlen
      have hsmem : samples.getD i ([], [], none) ∈ samples :=
        getD_mem_of_lt samples i ([], [], none) hi
      have hnz : (samples.getD i ([], [], none)).1.getD j 0 ≠ 0 := by
        intro h0
        exact hz _ hsmem (h0 ▸ hmem)
      rw [hget, if_pos hnz]
      exact iff_of_true rfl hjlen
    · have hget : ((samples.getD i ([], [], none)).1 ++
          List.replicate (padMaxLen (samples.map (fun (s : Sample) => s.1)) -
            (samples.getD i ([], [], none)).1.length) 0).getD j 0 = 0 :=
        getD_append_replicate_right _ _ j (not_lt.1 hjlen)
      rw [hget, if_neg (by simp)]
      exact iff_of_false (by omega) hjlen

/-- C5 (amended): for a non-empty batch in which each sample's segment
tensor has the token tensor's length (as every `OnlineQueryDataset` sample
does) and in which all samples carry labels whenever the first does, the
collated token and segment tensors are rectangular of shape
`(batch_size, max_token_len_in_batch)` with zero right-padding, and the
label component stacks the labels when the first sample has one and is
`none` otherwise. -/
theorem create_mini_batch_shapes (samples : List Sample) (hne : samples ≠ [])
    (hlen : ∀ s ∈ samples, s.2.1.length = s.1.length)
    (hlab : (samples.headD ([], [], none)).2.2.isSome = true →
      ∀ s ∈ samples, (s.2.2).isSome = true) : RectSpec samples := by
  have heq := create_mini_batch_eq samples hne hlab
  have hmaxeq : padMaxLen (samples.map (fun (s : Sample) => s.2.1)) =
      padMaxLen (samples.map (fun (s : Sample) => s.1)) := by
    unfold padMaxLen
    rw [List.map_map, List.map_map]
    congr 1
    apply List.map_congr_left
    intro s hs
    exact hlen s hs
  have htok : tokensOf samples = pad_sequence (samples.map (fun (s : Sample) => s.1)) := by
    rw [tokensOf, collate, heq]
    rfl
  have hseg : segmentsOf samples =
      pad_sequence (samples.map (fun (s : Sample) => s.2.1)) := by
    rw [segmentsOf, collate, heq]
    rfl
  refine ⟨by rw [heq]; rfl, ?_, ?_, ?_, ?_, ?_, ?_, ?_⟩
  · rw [htok, pad_sequence_length]
    simp
  · rw [hseg, pad_sequence_length]
    simp
  · intro i hi
    rw [htok, pad_sequence_getD _ i (by simpa using hi),
      getD_map_sample (fun (s : Sample) => s.1) [] samples i hi]
  · intro i hi
    rw [hseg, pad_sequence_getD _ i (by simpa using hi),
      getD_map_sample (fun (s : Sample) => s.2.1) [] samples i hi, hmaxeq]
  · intro i hi
    rw [htok, pad_sequence_getD_length _ i (by simpa using hi)]
  · intro i hi
    rw [hseg, pad_sequence_getD_length _ i (by simpa using hi), hmaxeq]
  · rw [labelsOf, collate, heq]
    rfl

/-- C3 counterexample: the sample whose single token has id 0 (BERT's
`[PAD]` id) is a non-pad position, yet the mask marks it 0. -/
theorem create_mini_batch_mask_cex : ¬ MaskSpec [([0], [1], none)] := by decide

/-- C3 witness input for the amended claim. -/
theorem create_mini_batch_mask_witness :
    MaskSpec [([101, 5, 102], [1, 1, 1], some 2), ([101, 102], [1, 1], some 0)] :=
  create_mini_batch_mask _ (by decide) (by decide) (by decide)

/-- C5 counterexample: a sample whose segment tensor is longer than its
token tensor is padded to the segment maximum, not the token maximum, so
the two tensors have different widths. -/
theorem create_mini_batch_shapes_cex : ¬ RectSpec [([1], [1, 1], none)] := by decide

/-- C5 witness input for the amended claim. -/
theorem create_mini_batch_shapes_witness :
    RectSpec [([7], [3], none), ([8, 9], [4, 4], none)] :=
  create_mini_batch_shapes _ (by decide) (by decide) (by decide)

/-- C9: `create_mini_batch` fails on an empty batch, since it
unconditionally reads `samples[0]`. -/
theorem create_mini_batch_nil : create_mini_batch ([] : List Sample) = none := rfl

/-- The avowed mode of an `OnlineQueryDataset` (asserted to be one of
`"train"`, `"val"`, `"test"`). -/
inductive Mode where
  | train
  | val
  | test
deriving DecidableEq, Repr

/-- `OnlineQueryDataset.__getitem__` on the row at `idx`: in test mode the
label tensor is `None`, otherwise it is the row's label; the word pieces
are `["[CLS]"] + tokenizer.tokenize(text) + ["[SEP]"]`; the token tensor is
their ids (`convert_tokens_to_ids`, modelled per-token by `convertId`); the
segments tensor is `[1] * len_a` where `len_a = len(word_pieces)`. -/
def getItem (tokenize : String → List String) (convertId : String → ℕ)
    (mode : Mode) (row : Row) : Sample :=
  let label_tensor : Option ℤ :=
    match mode with
    | Mode.test => none
    | Mode.val => some row.index
    | Mode.train => some row.index
  let word_pieces := "[CLS]" :: (tokenize row.question ++ ["[SEP]"])
  let ids := word_pieces.map convertId
  (ids, List.replicate word_pieces.length 1, label_tensor)

/-- C10: for every tokenizer, mode and row, the segments tensor of
`__getitem__` is a constant vector of ones of the same length as the token
tensor, which begins with the `[CLS]` id and ends with the `[SEP]` id. -/
theorem getItem_segments_ones (tokenize : String → List String)
    (convertId : String → ℕ) (mode : Mode) (row : Row) :
    (getItem tokenize convertId mode row).2.1 =
      List.replicate (getItem tokenize convertId mode row).1.length 1 ∧
    (getItem tokenize convertId mode row).1.head? = some (convertId "[CLS]") ∧
    (getItem tokenize convertId mode row).1.getLast? = some (convertId "[SEP]") := by
  refine ⟨?_, ?_, ?_⟩
  · simp [getItem]
  · simp [getItem]
  · simp only [getItem, List.map_cons, List.map_append, List.map_nil]
    rw [← List.cons_append, List.getLast?_concat]

/-- The module-level names bound in `bert_downstream_classification.py`:
the imported names followed by the `def`/`class` statements of the file.
Neither `train`, `save_model` nor `predict` is among them (they exist only
as methods of `Model`). -/
def moduleNames : List String :=
  ["argparse", "torch", "BertTokenizer", "BertForSequenceClassification",
   "clear_output", "pd", "np", "os", "DataLoader", "pad_sequence", "Dataset",
   "filter_toofew_toolong", "reindex", "create_label2index", "create_index2label",
   "preprocessing", "get_num_labels", "bootstrap", "OnlineQueryDataset",
   "create_mini_batch", "output_split", "read_online_query", "getOnlineQueryDataset",
   "get_predictions", "Model", "write_prediction", "plain_accuracy", "main"]

/-- The attributes of the parsed `args` namespace: one per
`parser.add_argument` call.  `model_prediction` is commented out, so
`args.model_prediction` raises `AttributeError`. -/
def argNames : List String :=
  ["data_path", "epoch", "batch_size", "min_each_group", "maxlength",
   "do_test", "model_output", "model_start"]

/-- The side-effecting steps of `main` that the claims speak about: global
name lookups, `args` attribute reads, and the externally visible effects. -/
inductive Action where
  | call (name : String)
  | attr (name : String)
  | readData
  | trainModel
  | saveModel
  | writePred
deriving DecidableEq, Repr

/-- The observable outcome of a run of `main` past argument parsing. -/
structure MainEffects where
  printedMissingModel : Bool
  readData : Bool
  trained : Bool
  savedModel : Bool
  wrotePrediction : Bool
  error : Option String
deriving DecidableEq, Repr

/-- Run a straight-line sequence of steps: a lookup of an unbound global
(`NameError`) or a missing `args` attribute (`AttributeError`) aborts the
rest; effect markers record what completed before the abort. -/
def exec : List Action → MainEffects
  | [] =>
    { printedMissingModel := false, readData := false, trained := false,
      savedModel := false, wrotePrediction := false, error := none }
  | Action.call n :: rest =>
    if n ∈ moduleNames then exec rest
    else { printedMissingModel := false, readData := false, trained := false,
           savedModel := false, wrotePrediction := false, error := some n }
  | Action.attr n :: rest =>
    if n ∈ argNames then exec rest
    else { printedMissingModel := false, readData := false, trained := false,
           savedModel := false, wrotePrediction := false, error := some n }
  | Action.readData :: rest => { exec rest with readData := true }
  | Action.trainModel :: rest => { exec rest with trained := true }
  | Action.saveModel :: rest => { exec rest with savedModel := true }
  | Action.writePred :: rest => { exec rest with wrotePrediction := true }

/-- The steps of the `args.do_test` branch once a starting model was given:
`pred = predict(args.model_start, args.data_path, args.batch_size)` then
`write_prediction(args.model_prediction, pred)` (the callable is evaluated
before its arguments). -/
def testModeTrace : List Action :=
  [Action.call "predict", Action.attr "model_start", Action.attr "data_path",
   Action.attr "batch_size",
   Action.call "write_prediction", Action.attr "model_prediction", Action.writePred]

/-- The steps of the non-test path of `main`, in program order: read and
preprocess the data, build the label maps and the split, build tokenizer,
datasets and loaders, then `train(...)`, `save_model(...)`,
`get_predictions(...)`, the `args.model_prediction` read, and the final
prediction write and accuracy print. -/
def trainModeTrace : List Action :=
  [Action.call "read_online_query", Action.attr "data_path", Action.readData,
   Action.call "preprocessing", Action.attr "min_each_group", Action.attr "maxlength",
   Action.call "create_label2index",
   Action.call "reindex",
   Action.call "get_num_labels",
   Action.call "output_split",
   Action.call "BertTokenizer",
   Action.call "clear_output",
   Action.call "OnlineQueryDataset", Action.call "OnlineQueryDataset",
   Action.call "OnlineQueryDataset",
   Action.attr "batch_size",
   Action.call "DataLoader", Action.call "create_mini_batch",
   Action.call "DataLoader", Action.call "create_mini_batch",
   Action.call "DataLoader", Action.call "create_mini_batch",
   Action.attr "model_start",
   Action.call "train", Action.attr "epoch", Action.trainModel,
   Action.call "save_model", Action.attr "model_output", Action.saveModel,
   Action.call "get_predictions",
   Action.attr "model_prediction",
   Action.call "write_prediction", Action.attr "model_output", Action.writePred,
   Action.call "plain_accuracy"]

/-- Python truthiness of the optional string `args.model_start`:
`not args.model_start` holds for `None` and for the empty string. -/
def falsyStr (o : Option String) : Bool := o.isNone || o == some ""

/-- `main()` after argument parsing, as a function of the `--do_test`
switch and the `--model_start` value: the test branch returns early without
a model, otherwise each branch runs its straight-line steps. -/
def main (do_test : Bool) (model_start : Option String) : MainEffects :=
  if do_test = true then
    if falsyStr model_start then
      { printedMissingModel := true, readData := false, trained := false,
        savedModel := false, wrotePrediction := false, error := none }
    else exec testModeTrace
  else exec trainModeTrace

/-- A run ended in an unbound-name or missing-attribute error with no model
saved and no prediction written. -/
def FailsBeforeOutput (e : MainEffects) : Prop :=
  e.error.isSome = true ∧ e.savedModel = false ∧ e.wrotePrediction = false

/-- C2: every invocation of `main` past parsing that does not take the
test-mode-without-model early return aborts on an undefined name before
saving a model or writing predictions — on `train` in the non-test path and
on `predict` in the test-with-model path. -/
theorem main_always_fails (do_test : Bool) (model_start : Option String)
    (h : ¬ (do_test = true ∧ falsyStr model_start = true)) :
    FailsBeforeOutput (main do_test model_start) ∧
    (do_test = false → (main do_test model_start).error = some "train") ∧
    (do_test = true → (main do_test model_start).error = some "predict") := by
  cases do_test with
  | false =>
    have hm : main false model_start = exec trainModeTrace := rfl
    rw [hm]
    exact ⟨⟨by decide, by decide, by decide⟩, fun _ => by decide,
      fun hc => Bool.noConfusion hc⟩
  | true =>
    have hfal : falsyStr model_start = false := by
      cases hf : falsyStr model_start with
      | false => rfl
      | true => exact absurd ⟨rfl, hf⟩ h
    have hm : main true model_start = exec testModeTrace := by
      rw [main, if_pos rfl, if_neg (by rw [hfal]; exact Bool.false_ne_true)]
    rw [hm]
    exact ⟨⟨by decide, by decide, by decide⟩, fun hc => Bool.noConfusion hc,
      fun _ => by decide⟩

/-- C2 witness: the non-test path aborts on the undefined `train`. -/
theorem main_always_fails_witness :
    FailsBeforeOutput (main false none) ∧
    (false = false → (main false none).error = some "train") ∧
    (false = true → (main false none).error = some "predict") :=
  main_always_fails false none (by decide)

/-- C8: with `--do_test` set and no `--model_start`, `main` prints the
message and returns: no data read, no training, no model saved, no
prediction written, and no error raised. -/
theorem main_test_without_model (do_test : Bool) (model_start : Option String)
    (h1 : do_test = true) (h2 : falsyStr model_start = true) :
    (main do_test model_start).printedMissingModel = true ∧
    (main do_test model_start).readData = false ∧
    (main do_test model_start).trained = false ∧
    (main do_test model_start).savedModel = false ∧
    (main do_test model_start).wrotePrediction = false ∧
    (main do_test model_start).error = none := by
  subst h1
  rw [main, if_pos rfl, if_pos h2]
  exact ⟨rfl, rfl, rfl, rfl, rfl, rfl⟩

/-- C8 witness: `--do_test` with `model_start = None`. -/
theorem main_test_without_model_witness :
    (main true none).printedMissingModel = true ∧
    (main true none).readData = false ∧
    (main true none).trained = false ∧
    (main true none).savedModel = false ∧
    (main true none).wrotePrediction = false ∧
    (main true none).error = none :=
  main_test_without_model true none rfl (by decide)

end BertDownstream
